import Mathlib

/-!
# TurboPivot UI layer: shallow embedding and verification

This file embeds, in Lean 4, the TypeScript UI layer of the TurboPivot
repository (the files `src/components/types.ts`,
`src/components/FilterConfigurator.tsx`, `src/components/PivotConfigurator.tsx`,
`src/components/PivotTable.tsx` and `src/App.tsx`) and proves properties of
the embedded code.

Conventions of the embedding:
* JavaScript strings are Lean `String`s; the handful of string primitives the
  code uses (`Number(...)`, `trim`, `toLowerCase`, `split(',')`, `includes`,
  `endsWith`) are modelled character-list by character-list after the
  ECMAScript definitions.
* JavaScript numbers are idealised as exact values: an `Option JNum` models
  the result of `Number(s)` (`none` plays the role of `NaN`, and finite values
  are exact rationals rather than IEEE doubles; no claim below depends on
  rounding or overflow, only on whether the parse yields `NaN`).
* Fallible JavaScript evaluation (accessing a property of `undefined`, which
  throws a `TypeError`) is modelled by `Option`: `none` is the thrown
  exception.
-/

/-- The result of a successful JavaScript `Number(string)` conversion:
either a finite value (idealised as an exact rational) or an infinity.
`Number(s)` evaluating to `NaN` is modelled as `Option.none` at use sites. -/
inductive JNum where
  | finite (q : Rat)
  | posInf
  | negInf
deriving DecidableEq

/-- The scalar JavaScript values the filter UI produces: numbers, booleans
and strings (the element type of the `parsedItems` array in
`FilterConfigurator.updateFilter`). -/
inductive Scalar where
  | num (n : JNum)
  | bool (b : Bool)
  | str (s : String)
deriving DecidableEq

/-- The possible shapes of `FilterCondition.value` after the UI has coerced a
raw input: a scalar, or a list of scalars (produced for the `In` operator). -/
inductive JSValue where
  | scalar (s : Scalar)
  | list (l : List Scalar)
deriving DecidableEq

/-- `true` exactly when the value is a JavaScript array (`Array.isArray`). -/
def JSValue.isList : JSValue → Bool
  | .list _ => true
  | .scalar _ => false

/-- The ECMAScript white-space set used by `String.prototype.trim` and by the
`StringNumericLiteral` grammar of `Number(string)`: WhiteSpace (TAB, VT, FF,
SP, NBSP, ZWNBSP and the Unicode Zs spaces) together with the line
terminators LF, CR, LS, PS. -/
def jsWhitespace (c : Char) : Bool :=
  [0x9, 0xA, 0xB, 0xC, 0xD, 0x20, 0xA0, 0x1680, 0x2028, 0x2029,
    0x202F, 0x205F, 0x3000, 0xFEFF].contains c.toNat
  || (0x2000 ≤ c.toNat && c.toNat ≤ 0x200A)

/-- JavaScript `String.prototype.trim`: drop leading and trailing
ECMAScript white space. -/
def jsTrim (s : String) : String :=
  ⟨((s.data.dropWhile jsWhitespace).reverse.dropWhile jsWhitespace).reverse⟩

/-- JavaScript `String.prototype.toLowerCase`, restricted to the ASCII
letters (the only case mapping the embedded comparisons against the literals
`"true"` and `"false"` can observe). -/
def jsToLower (s : String) : String :=
  ⟨s.data.map Char.toLower⟩

/-- JavaScript `String.prototype.split(',')` on a character list:
separator-split keeping empty segments (so `""` splits to `[""]`). -/
def splitCommaAux : List Char → List Char → List String
  | [], acc => [⟨acc.reverse⟩]
  | c :: rest, acc =>
      if c = ',' then ⟨acc.reverse⟩ :: splitCommaAux rest []
      else splitCommaAux rest (c :: acc)

/-- JavaScript `String.prototype.split(',')`. -/
def splitComma (s : String) : List String :=
  splitCommaAux s.data []

/-- The numeric value of a hexadecimal digit character, if it is one. -/
def hexVal (c : Char) : Option Nat :=
  if '0' ≤ c ∧ c ≤ '9' then some (c.toNat - 48)
  else if 'a' ≤ c ∧ c ≤ 'f' then some (c.toNat - 87)
  else if 'A' ≤ c ∧ c ≤ 'F' then some (c.toNat - 55)
  else none

/-- The numeric value of a digit character in the given base (2, 8 or 16),
if it is a valid digit of that base. -/
def digitInBase (base : Nat) (c : Char) : Option Nat :=
  match hexVal c with
  | some d => if d < base then some d else none
  | none => none

/-- Accumulate the value of a digit string in the given base; `none` if any
character is not a digit of the base. -/
def radixDigitsVal (base : Nat) (cs : List Char) : Option Nat :=
  cs.foldl (fun acc c =>
    match acc, digitInBase base c with
    | some a, some d => some (a * base + d)
    | _, _ => none) (some 0)

/-- `Number("0x…")` / `Number("0o…")` / `Number("0b…")` digits: a non-empty
all-digit tail yields the radix value, anything else is `NaN`. -/
def parseRadix (base : Nat) (cs : List Char) : Option JNum :=
  if cs = [] then none
  else (radixDigitsVal base cs).map (fun n => JNum.finite (mkRat n 1))

/-- The value of a (known valid) decimal-digit string. -/
def decDigitsVal (cs : List Char) : Nat :=
  cs.foldl (fun a c => a * 10 + (c.toNat - 48)) 0

/-- Parse the optional exponent tail of a decimal literal: empty means
exponent `0`; `e`/`E` followed by an optionally signed non-empty digit string
gives that exponent; anything else makes the whole literal `NaN`. -/
def parseExp (cs : List Char) : Option Int :=
  match cs with
  | [] => some 0
  | c :: rest =>
      if c = 'e' ∨ c = 'E' then
        match rest with
        | '+' :: ds =>
            if ds ≠ [] ∧ ds.all (·.isDigit) then some (decDigitsVal ds) else none
        | '-' :: ds =>
            if ds ≠ [] ∧ ds.all (·.isDigit) then some (-(decDigitsVal ds : Int)) else none
        | ds =>
            if ds ≠ [] ∧ ds.all (·.isDigit) then some (decDigitsVal ds) else none
      else none

/-- The exact rational `s * mantissa * 10 ^ pow` (`s` the sign), built with a
single `mkRat` so that it evaluates by kernel reduction. -/
def decToRat (neg : Bool) (mantissa : Nat) (pow : Int) : Rat :=
  let m : Int := if neg then -(mantissa : Int) else (mantissa : Int)
  if 0 ≤ pow then mkRat (m * ((10 ^ pow.toNat : Nat) : Int)) 1
  else mkRat m (10 ^ (-pow).toNat)

/-- Parse an unsigned decimal literal (`digits`, `digits.digits?`,
`.digits`, each with an optional exponent part) into its decimal mantissa and
power-of-ten exponent; `none` is `NaN`. -/
def parseUnsignedDec (cs : List Char) : Option (Nat × Int) :=
  let ip := cs.takeWhile (·.isDigit)
  let rest := cs.dropWhile (·.isDigit)
  match rest with
  | '.' :: rest2 =>
      let fp := rest2.takeWhile (·.isDigit)
      let rest3 := rest2.dropWhile (·.isDigit)
      if ip = [] ∧ fp = [] then none
      else (parseExp rest3).map (fun e =>
        (decDigitsVal (ip ++ fp), e - (fp.length : Int)))
  | _ =>
      if ip = [] then none
      else (parseExp rest).map (fun e => (decDigitsVal ip, e))

/-- Parse an optionally signed decimal literal, including the literal
`Infinity`; `none` is `NaN`. -/
def parseSignedDec (cs : List Char) : Option JNum :=
  match cs with
  | '+' :: rest =>
      if rest = "Infinity".data then some JNum.posInf
      else (parseUnsignedDec rest).map (fun p => JNum.finite (decToRat false p.1 p.2))
  | '-' :: rest =>
      if rest = "Infinity".data then some JNum.negInf
      else (parseUnsignedDec rest).map (fun p => JNum.finite (decToRat true p.1 p.2))
  | _ =>
      if cs = "Infinity".data then some JNum.posInf
      else (parseUnsignedDec cs).map (fun p => JNum.finite (decToRat false p.1 p.2))

/-- JavaScript `Number(string)`: trim ECMAScript white space, then parse the
string numeric literal (empty means `0`; `0x`/`0o`/`0b` radix literals;
otherwise an optionally signed decimal literal or `Infinity`). `none` models
the result `NaN`. -/
def jsNumber (s : String) : Option JNum :=
  let cs := (jsTrim s).data
  match cs with
  | [] => some (JNum.finite (mkRat 0 1))
  | '0' :: x :: rest =>
      if x = 'x' ∨ x = 'X' then parseRadix 16 rest
      else if x = 'o' ∨ x = 'O' then parseRadix 8 rest
      else if x = 'b' ∨ x = 'B' then parseRadix 2 rest
      else parseSignedDec cs
  | _ => parseSignedDec cs

/-! ## The data model of `src/components/types.ts` -/

/-- `enum AggregationType` of `types.ts`. -/
inductive AggregationType where
  | Sum | Mean | Count | Min | Max | First | Last | Median | Std | Var
deriving DecidableEq

/-- The wire value of an `AggregationType` member: the string literal it is
declared equal to in `types.ts` (`Sum = "Sum"`, …), which is what
JSON-serialising a request places on the wire. -/
def AggregationType.wireValue : AggregationType → String
  | .Sum => "Sum"
  | .Mean => "Mean"
  | .Count => "Count"
  | .Min => "Min"
  | .Max => "Max"
  | .First => "First"
  | .Last => "Last"
  | .Median => "Median"
  | .Std => "Std"
  | .Var => "Var"

/-- The identifier each `AggregationType` member is declared under (the
member's literal name, as the spec's wire-encoding sentence puts it). -/
def AggregationType.memberName : AggregationType → String
  | .Sum => "Sum"
  | .Mean => "Mean"
  | .Count => "Count"
  | .Min => "Min"
  | .Max => "Max"
  | .First => "First"
  | .Last => "Last"
  | .Median => "Median"
  | .Std => "Std"
  | .Var => "Var"

/-- `enum FilterOperator` of `types.ts`. -/
inductive FilterOperator where
  | Equal | NotEqual | GreaterThan | LessThan
  | GreaterThanOrEqual | LessThanOrEqual | Contains | In
deriving DecidableEq

/-- The wire value of a `FilterOperator` member: the string literal it is
declared equal to in `types.ts`. -/
def FilterOperator.wireValue : FilterOperator → String
  | .Equal => "Equal"
  | .NotEqual => "NotEqual"
  | .GreaterThan => "GreaterThan"
  | .LessThan => "LessThan"
  | .GreaterThanOrEqual => "GreaterThanOrEqual"
  | .LessThanOrEqual => "LessThanOrEqual"
  | .Contains => "Contains"
  | .In => "In"

/-- The identifier each `FilterOperator` member is declared under. -/
def FilterOperator.memberName : FilterOperator → String
  | .Equal => "Equal"
  | .NotEqual => "NotEqual"
  | .GreaterThan => "GreaterThan"
  | .LessThan => "LessThan"
  | .GreaterThanOrEqual => "GreaterThanOrEqual"
  | .LessThanOrEqual => "LessThanOrEqual"
  | .Contains => "Contains"
  | .In => "In"

/-- `interface ValueWithAggregation` of `types.ts`. -/
structure ValueWithAggregation where
  field : String
  aggregation : AggregationType
deriving DecidableEq

/-- `interface FilterCondition` of `types.ts` (`value: any` is the scalar or
list value the filter UI stores there). -/
structure FilterCondition where
  column : String
  operator : FilterOperator
  value : JSValue
deriving DecidableEq

/-- `interface PivotRequest` of `types.ts`: note that alongside `rows`,
`columns`, `values` and the optional `filters`, the interface carries a fifth
field `data_path`. -/
structure PivotRequest where
  data_path : String
  rows : List String
  columns : List String
  values : List ValueWithAggregation
  filters : Option (List FilterCondition)
deriving DecidableEq

/-- `interface PivotResult` of `types.ts`; each element of `data` is a
`Record<string, any>` modelled as an association list (JavaScript object keys
are unique, and property access returns the entry of the key). -/
structure PivotResult where
  data : List (List (String × Scalar))
  column_headers : List (List String)
  row_headers : List String
deriving DecidableEq

/-! ## `FilterConfigurator.tsx`: value coercion (`updateFilter`) -/

/-- The element coercion inside `updateFilter`'s `In` branch
(`FilterConfigurator.tsx`, lines 54–59): try `Number(item)` (guarded by
`item !== ""`), then the case-insensitive boolean literals, else keep the
string. -/
def coerceItem (item : String) : Scalar :=
  match jsNumber item with
  | some n =>
      if item ≠ "" then Scalar.num n
      else if jsToLower item = "true" then Scalar.bool true
      else if jsToLower item = "false" then Scalar.bool false
      else Scalar.str item
  | none =>
      if jsToLower item = "true" then Scalar.bool true
      else if jsToLower item = "false" then Scalar.bool false
      else Scalar.str item

/-- The fallthrough of `updateFilter`'s value branch once the top-level
numeric test has failed (`FilterConfigurator.tsx`, lines 43–66): boolean
literals, then — only for the `In` operator — the comma-split list with each
trimmed element coerced by `coerceItem`, else the raw string. -/
def coerceFallback (op : FilterOperator) (value : String) : JSValue :=
  if jsToLower value = "true" then JSValue.scalar (Scalar.bool true)
  else if jsToLower value = "false" then JSValue.scalar (Scalar.bool false)
  else if op = FilterOperator.In then
    JSValue.list (((splitComma value).map jsTrim).map coerceItem)
  else JSValue.scalar (Scalar.str value)

/-- The full value branch of `updateFilter` (`FilterConfigurator.tsx`,
lines 39–67): `!isNaN(Number(value)) && value.trim() !== ""` stores the
number, otherwise control falls through to `coerceFallback`. -/
def coerceFilterValue (op : FilterOperator) (value : String) : JSValue :=
  match jsNumber value with
  | some n =>
      if jsTrim value = "" then coerceFallback op value
      else JSValue.scalar (Scalar.num n)
  | none => coerceFallback op value

/-- The top-level numeric test of `updateFilter`
(`!isNaN(Number(value)) && value.trim() !== ""`), packaged as the parsed
number it lets through. -/
def numGuard (value : String) : Option JNum :=
  match jsNumber value with
  | some n => if jsTrim value = "" then none else some n
  | none => none

/-- In-place update of the array entry at an index, as the JavaScript
`updatedFilters[index].… = …` assignments do (an out-of-range index is left
unreachable by the component, which only passes indices produced by
`filters.map`). -/
def setAt {α : Type} : List α → Nat → (α → α) → List α
  | [], _, _ => []
  | x :: xs, 0, g => g x :: xs
  | x :: xs, n + 1, g => x :: setAt xs n g

/-- The seven entries of the operator `<select>` rendered by
`FilterConfigurator` (lines 108–114); the `Contains` member of
`FilterOperator` has no entry. -/
inductive OperatorChoice where
  | equalTo | notEqualTo | greaterThan | lessThan
  | greaterThanOrEqual | lessThanOrEqual | inList
deriving DecidableEq

/-- The `FilterOperator` value each `<option>` of the operator select
carries. -/
def OperatorChoice.toOperator : OperatorChoice → FilterOperator
  | .equalTo => FilterOperator.Equal
  | .notEqualTo => FilterOperator.NotEqual
  | .greaterThan => FilterOperator.GreaterThan
  | .lessThan => FilterOperator.LessThan
  | .greaterThanOrEqual => FilterOperator.GreaterThanOrEqual
  | .lessThanOrEqual => FilterOperator.LessThanOrEqual
  | .inList => FilterOperator.In

/-- The interactions `FilterConfigurator` exposes: the add-filter button, the
remove button of row `i`, and the three `onChange` handlers of row `i` (the
column select, the operator select — whose payload ranges over the seven
rendered options — and the free-text value input). -/
inductive FilterEvent where
  | add
  | remove (i : Nat)
  | setColumn (i : Nat) (c : String)
  | setOperator (i : Nat) (o : OperatorChoice)
  | setValue (i : Nat) (raw : String)

/-- One step of `FilterConfigurator`'s state (its `filters` array), given the
`columns` prop: `addFilter` (no-op on an empty column list, else appends
`{column: columns[0], operator: Equal, value: ""}`), `removeFilter`, and the
three branches of `updateFilter`. -/
def filterStep (columns : List String) (filters : List FilterCondition) :
    FilterEvent → List FilterCondition
  | .add =>
      match columns with
      | [] => filters
      | c :: _ => filters ++ [⟨c, FilterOperator.Equal, JSValue.scalar (Scalar.str "")⟩]
  | .remove i => filters.eraseIdx i
  | .setColumn i c => setAt filters i (fun f => { f with column := c })
  | .setOperator i o => setAt filters i (fun f => { f with operator := o.toOperator })
  | .setValue i raw => setAt filters i (fun f => { f with value := coerceFilterValue f.operator raw })

/-- The `filters` state reached from the initial `useState([])` after a
sequence of interactions (this is also, verbatim, what each interaction
passes to `onFiltersChange`). -/
def runFilters (columns : List String) (evs : List FilterEvent) : List FilterCondition :=
  evs.foldl (filterStep columns) []

/-! ## `PivotConfigurator.tsx`: dimension assignment -/

/-- The four values of the dimension `<select>` in `PivotConfigurator`
(lines 72–75): the TypeScript annotation of `handleDimensionChange` lists
only `"rows" | "columns" | "values"`, but the handler is invoked with
`e.target.value as any`, which also delivers `"none"` (all three `if`
branches then fail). -/
inductive Dimension where
  | rows | columns | values | unused
deriving DecidableEq

/-- The state of `PivotConfigurator`: its three `useState` lists. -/
structure ConfigState where
  rowFields : List String
  columnFields : List String
  valueFields : List ValueWithAggregation
deriving DecidableEq

/-- `handleDimensionChange` (`PivotConfigurator.tsx`, lines 14–39): remove
the field from all three dimensions, then append it to the selected one —
with `AggregationType.Sum` as the default aggregation when it joins
`values`. -/
def handleDimensionChange (field : String) (dim : Dimension) (st : ConfigState) : ConfigState :=
  let newRowFields := st.rowFields.filter (fun f => f != field)
  let newColumnFields := st.columnFields.filter (fun f => f != field)
  let newValueFields := st.valueFields.filter (fun v => v.field != field)
  match dim with
  | .rows => ⟨newRowFields ++ [field], newColumnFields, newValueFields⟩
  | .columns => ⟨newRowFields, newColumnFields ++ [field], newValueFields⟩
  | .values => ⟨newRowFields, newColumnFields,
      newValueFields ++ [⟨field, AggregationType.Sum⟩]⟩
  | .unused => ⟨newRowFields, newColumnFields, newValueFields⟩

/-- `handleAggregationChange` (`PivotConfigurator.tsx`, lines 41–48): update
the aggregation of the matching value field, via
`valueFields.map(v => v.field === field ? {...v, aggregation} : v)`. -/
def handleAggregationChange (field : String) (agg : AggregationType) (st : ConfigState) : ConfigState :=
  { st with valueFields :=
      st.valueFields.map (fun v => if v.field = field then { v with aggregation := agg } else v) }

/-- The interactions `PivotConfigurator` exposes: the dimension select and
the aggregation select of a field. -/
inductive ConfigEvent where
  | dimChange (field : String) (dim : Dimension)
  | aggChange (field : String) (agg : AggregationType)
deriving DecidableEq

/-- One `PivotConfigurator` step. -/
def configStep (st : ConfigState) : ConfigEvent → ConfigState
  | .dimChange f d => handleDimensionChange f d st
  | .aggChange f a => handleAggregationChange f a st

/-- The configurator state reached from the initial empty `useState`s after a
sequence of interactions (its three lists are also, verbatim, what each
interaction passes to `onConfigChange`). -/
def runConfig (evs : List ConfigEvent) : ConfigState :=
  evs.foldl configStep ⟨[], [], []⟩

/-- The aggregation the configurator displays (and emits) for a field, read
off with `valueFields.find(v => v.field === column)` exactly as the
aggregation select's `value` prop does (`PivotConfigurator.tsx`, line 80). -/
def lookupAgg (st : ConfigState) (f : String) : Option AggregationType :=
  (st.valueFields.find? (fun v => v.field == f)).map (fun v => v.aggregation)

/-! ## `App.tsx`: application state and `generatePivot` -/

/-- The `useState` hooks of `App` (`App.tsx`, lines 11–19). -/
structure AppState where
  filePath : Option String
  columns : List String
  rowFields : List String
  columnFields : List String
  valueFields : List ValueWithAggregation
  filters : List FilterCondition
  pivotResult : Option PivotResult
  isLoading : Bool
  error : Option String
deriving DecidableEq

/-- The initial `App` state: every hook starts at `null` / `[]` / `false`. -/
def initialAppState : AppState :=
  ⟨none, [], [], [], [], [], none, false, none⟩

/-- `generatePivot` (`App.tsx`, lines 47–81), with the Tauri
`invoke("run_pivot", …)` backend abstracted as a function from the request to
a result or a thrown error. Returns the `App` state after the call completes
together with the request sent to the backend (`none` when the function
returned before issuing one). The two early returns leave `isLoading` and
`pivotResult` untouched; on the main path `setIsLoading(true)` and
`setError(null)` precede the call, the `catch` branch sets the error and
clears the result, and `finally` clears `isLoading`. -/
def generatePivot (backend : PivotRequest → Except String PivotResult)
    (st : AppState) : AppState × Option PivotRequest :=
  match st.filePath with
  | none => ({ st with error := some "Please select a file first" }, none)
  | some path =>
      if st.valueFields = [] then
        ({ st with error := some "Please select at least one value field with aggregation" }, none)
      else
        let request : PivotRequest :=
          { data_path := path
            rows := st.rowFields
            columns := st.columnFields
            values := st.valueFields
            filters := if st.filters.length > 0 then some st.filters else none }
        match backend request with
        | .ok result =>
            ({ st with isLoading := false, error := none, pivotResult := some result },
              some request)
        | .error e =>
            ({ st with
                isLoading := false
                error := some ("Error generating pivot: " ++ e)
                pivotResult := none },
              some request)

/-- The events `App` reacts to: `handleFileSelected` (from `FileSelector`),
`handleConfigChange` (from `PivotConfigurator`), `handleFiltersChange` (from
`FilterConfigurator`) and a click of the generate button. -/
inductive AppEvent where
  | fileSelected (path : String) (cols : List String)
  | configChange (rows : List String) (cols : List String) (values : List ValueWithAggregation)
  | filtersChange (fs : List FilterCondition)
  | generate

/-- The generate button is clickable only when it is rendered (`columns`
non-empty, `App.tsx` line 95) and not disabled
(`disabled={isLoading || valueFields.length === 0}`, line 110). -/
def canGenerate (st : AppState) : Prop :=
  st.columns ≠ [] ∧ st.isLoading = false ∧ st.valueFields ≠ []

instance (st : AppState) : Decidable (canGenerate st) := by
  unfold canGenerate; infer_instance

/-- One `App` step. A generate click on a state where the button is not
clickable is a no-op; otherwise it runs `generatePivot` to completion. -/
def appStep (backend : PivotRequest → Except String PivotResult)
    (st : AppState) : AppEvent → AppState
  | .fileSelected p cs =>
      { st with
          filePath := some p
          columns := cs
          pivotResult := none
          error := none
          filters := [] }
  | .configChange r c v =>
      { st with rowFields := r, columnFields := c, valueFields := v }
  | .filtersChange fs => { st with filters := fs }
  | .generate => if canGenerate st then (generatePivot backend st).1 else st

/-- The `App` state reached from the initial state after a sequence of
events. -/
def runApp (backend : PivotRequest → Except String PivotResult)
    (evs : List AppEvent) : AppState :=
  evs.foldl (appStep backend) initialAppState

/-! ## `PivotTable.tsx`: rendering -/

/-- JavaScript property access `row[key]` on a `Record<string, any>`:
the entry of the key, or `undefined` (`none`). -/
def recordGet (row : List (String × Scalar)) (key : String) : Option Scalar :=
  (row.find? (fun p => p.1 == key)).map (fun p => p.2)

/-- One data cell of the pivot table body (`PivotTable.tsx`, lines 58–75):
among the keys of the row record that contain `'_'` and are not row headers,
find the first ending with the column header; its value is the cell, and a
missing match renders the empty cell (`none` here). -/
def dataCell (rowHeaders : List String) (row : List (String × Scalar))
    (colHeader : String) : Option Scalar :=
  let valueKeys := (row.map (fun p => p.1)).filter
    (fun k => k.data.contains '_' && !(rowHeaders.contains k))
  match valueKeys.find? (fun k => colHeader.data.isSuffixOf k.data) with
  | some k => recordGet row k
  | none => none

/-- The rendered output of `PivotTable`, reduced to its observable content:
the loading placeholder, the empty-state placeholder, or the table with an
optional header row and one list of cells per data row (`none` cells render
blank). -/
inductive Rendered where
  | loading
  | emptyState
  | table (headerRow : Option (List String)) (body : List (List (Option Scalar)))
deriving DecidableEq

/-- One body row of the table (`PivotTable.tsx`, lines 50–76): the row-header
cells, then one data cell per entry of `result.column_headers[0]`. The access
`result.column_headers[0]` is unguarded here: when `column_headers` is the
empty list it yields `undefined` and the `.map` call on it throws, which this
embedding reports as `none`. -/
def renderBodyRow (res : PivotResult) (row : List (String × Scalar)) :
    Option (List (Option Scalar)) :=
  match res.column_headers with
  | [] => none
  | h0 :: _ =>
      some (res.row_headers.map (fun h => recordGet row h) ++
        h0.map (fun colHeader => dataCell res.row_headers row colHeader))

/-- `PivotTable` (`PivotTable.tsx`): loading and null-result placeholders,
then the table. The header row is guarded by
`result.column_headers.length > 0` (line 35); the body rows are not, so a
non-empty `data` with empty `column_headers` throws (`none`). -/
def renderPivotTable (result : Option PivotResult) (isLoading : Bool) :
    Option Rendered :=
  if isLoading then some Rendered.loading
  else
    match result with
    | none => some Rendered.emptyState
    | some res =>
        let headerRow := match res.column_headers with
          | [] => none
          | h0 :: _ => some h0
        (res.data.mapM (renderBodyRow res)).map
          (fun body => Rendered.table headerRow body)

/-! ## Invariant definitions and concrete instances used by the theorems -/

/-- The seven `FilterOperator` values offered by the operator select of
`FilterConfigurator` (one per rendered `<option>`). -/
def uiOperators : List FilterOperator :=
  [FilterOperator.Equal, FilterOperator.NotEqual, FilterOperator.GreaterThan,
    FilterOperator.LessThan, FilterOperator.GreaterThanOrEqual,
    FilterOperator.LessThanOrEqual, FilterOperator.In]

/-- Each field belongs to at most one of the three dimension lists of the
pivot configurator. -/
def dimensionsExclusive (st : ConfigState) : Prop :=
  ∀ f : String,
    ¬(f ∈ st.rowFields ∧ f ∈ st.columnFields) ∧
    ¬(f ∈ st.rowFields ∧ f ∈ st.valueFields.map (fun v => v.field)) ∧
    ¬(f ∈ st.columnFields ∧ f ∈ st.valueFields.map (fun v => v.field))

/-- Every filter condition in the list carries an operator offered by the
filter UI. -/
def operatorsFromUI (fs : List FilterCondition) : Prop :=
  ∀ f ∈ fs, f.operator ∈ uiOperators

/-- `App` never holds a pivot result without a selected file (results only
arrive through `generatePivot`, which requires a file). -/
def resultFileInv (st : AppState) : Prop :=
  st.pivotResult = none ∨ st.filePath ≠ none

/-- A concrete request (used to exhibit the fifth `PivotRequest` field). -/
def c3RequestA : PivotRequest :=
  ⟨"a.csv", ["r"], ["c"], [⟨"v", AggregationType.Sum⟩], none⟩

/-- The same request with only `data_path` changed. -/
def c3RequestB : PivotRequest :=
  ⟨"b.csv", ["r"], ["c"], [⟨"v", AggregationType.Sum⟩], none⟩

/-- A well-formed backend result with one data row, a row header, and no
column headers — the shape the spec ascribes to a pivot with zero column
fields (§4.5). -/
def c8FailingResult : PivotResult :=
  ⟨[[("region", Scalar.str "east"), ("amount_Sum", Scalar.num (JNum.finite 30))]],
    [], ["region"]⟩

/-- A backend stub for concrete runs that must not be reached. -/
def stubBackend : PivotRequest → Except String PivotResult :=
  fun _ => Except.error "unreachable"

/-- A concrete `App` state with a selected file and no value fields. -/
def c4State : AppState :=
  ⟨some "data.csv", ["c"], [], [], [], [], none, false, none⟩

/-- A backend that always succeeds with a fixed result. -/
def okBackend : PivotRequest → Except String PivotResult :=
  fun _ => Except.ok ⟨[], [["k"]], []⟩

/-- A concrete event run: select a file, then make `"c"` a value field. -/
def c5Events : List AppEvent :=
  [AppEvent.fileSelected "data.csv" ["c"],
    AppEvent.configChange [] [] [⟨"c", AggregationType.Sum⟩]]

/-! ## Helper lemmas -/

/-- Unfold `coerceFilterValue` through the packaged numeric guard. -/
theorem coerceFilterValue_eq (op : FilterOperator) (raw : String) :
    coerceFilterValue op raw =
      match numGuard raw with
      | some n => JSValue.scalar (Scalar.num n)
      | none => coerceFallback op raw := by
  unfold coerceFilterValue numGuard
  cases jsNumber raw with
  | none => rfl
  | some n => by_cases h : jsTrim raw = "" <;> simp [h]

/-- Membership in a `!=`-filtered string list. -/
theorem mem_filter_ne {l : List String} {f g : String} :
    g ∈ l.filter (fun x => x != f) ↔ g ∈ l ∧ g ≠ f := by
  simp [List.mem_filter]

/-- Membership among the field names of a `!=`-filtered value-field list. -/
theorem mem_fieldNames_filter {vs : List ValueWithAggregation} {f g : String} :
    g ∈ (vs.filter (fun v => v.field != f)).map (fun v => v.field) ↔
      g ∈ vs.map (fun v => v.field) ∧ g ≠ f := by
  simp only [List.mem_map, List.mem_filter, bne_iff_ne]
  constructor
  · rintro ⟨a, ⟨ha, hne⟩, hg⟩
    exact ⟨⟨a, ha, hg⟩, hg ▸ hne⟩
  · rintro ⟨⟨a, ha, hg⟩, hne⟩
    refine ⟨a, ⟨ha, ?_⟩, hg⟩
    rw [hg]; exact hne

/-- `handleAggregationChange`'s map leaves the field-name list unchanged. -/
theorem fieldNames_map_agg (vs : List ValueWithAggregation) (f : String) (a : AggregationType) :
    ((vs.map (fun v => if v.field = f then { v with aggregation := a } else v)).map
        (fun v => v.field)) =
      vs.map (fun v => v.field) := by
  induction vs with
  | nil => rfl
  | cons v rest ih => by_cases hv : v.field = f <;> simp [hv, ih]

/-! ## Claim theorems -/

/-- Claim C7: every member of `AggregationType` and `FilterOperator` is
declared equal to (and therefore serialises onto the wire as) the string that
is its own literal member name. -/
theorem c7_enum_wire_literal_names :
    (∀ a : AggregationType, a.wireValue = a.memberName) ∧
    (∀ o : FilterOperator, o.wireValue = o.memberName) := by
  constructor <;> intro x <;> cases x <;> rfl

/-- Claim C3, counterexample: two `PivotRequest`s that agree on `rows`,
`columns`, `values` and `filters` but are distinct — the interface carries a
fifth field, `data_path`, so the claimed four fields do not determine a
request. -/
theorem c3_counterexample :
    c3RequestA.rows = c3RequestB.rows ∧
    c3RequestA.columns = c3RequestB.columns ∧
    c3RequestA.values = c3RequestB.values ∧
    c3RequestA.filters = c3RequestB.filters ∧
    c3RequestA ≠ c3RequestB := by decide

/-- Claim C3, amended: a `PivotRequest` consists of exactly the five fields
`data_path`, `rows`, `columns`, `values` and the optional `filters`: two
requests are equal exactly when these five fields agree. -/
theorem c3_request_five_fields (r s : PivotRequest) :
    r = s ↔
      (r.data_path = s.data_path ∧ r.rows = s.rows ∧ r.columns = s.columns ∧
        r.values = s.values ∧ r.filters = s.filters) := by
  cases r; cases s; simp

/-- Claim C8: evaluating `PivotTable` at a well-formed result with one data
row and no column headers. The body rendering reaches the unguarded
`result.column_headers[0]` and calls `.map` on `undefined`, which throws — in
this embedding, `renderPivotTable` reports `none` instead of a rendering. -/
theorem c8_render_crash_on_empty_headers :
    c8FailingResult.data ≠ [] ∧
    c8FailingResult.column_headers = [] ∧
    renderPivotTable (some c8FailingResult) false = none := by decide

/-- Claim C1, counterexample: with the `In` operator selected, a raw value
that fails the numeric and boolean checks is not kept as a string — the
fallthrough stores the comma-split list (here a singleton list holding the
string) instead of the string itself. -/
theorem c1_counterexample :
    coerceFilterValue FilterOperator.In "a" = JSValue.list [Scalar.str "a"] ∧
    coerceFilterValue FilterOperator.In "a" ≠ JSValue.scalar (Scalar.str "a") := by decide

/-- Claim C1, amended: `updateFilter`'s value coercion is a total function
that tries the numeric parse first (JavaScript `Number`, guarded by a
non-blank trim), then the case-insensitive boolean literals, and otherwise
keeps the value as a string — except that with the `In` operator the final
fallthrough stores the comma-split list of independently coerced elements
instead of the raw string. -/
theorem c1_coercion_order (op : FilterOperator) (raw : String) :
    (∀ n, numGuard raw = some n →
      coerceFilterValue op raw = JSValue.scalar (Scalar.num n)) ∧
    (numGuard raw = none → jsToLower raw = "true" →
      coerceFilterValue op raw = JSValue.scalar (Scalar.bool true)) ∧
    (numGuard raw = none → jsToLower raw = "false" →
      coerceFilterValue op raw = JSValue.scalar (Scalar.bool false)) ∧
    (numGuard raw = none → jsToLower raw ≠ "true" → jsToLower raw ≠ "false" →
      op ≠ FilterOperator.In →
      coerceFilterValue op raw = JSValue.scalar (Scalar.str raw)) ∧
    (numGuard raw = none → jsToLower raw ≠ "true" → jsToLower raw ≠ "false" →
      op = FilterOperator.In →
      coerceFilterValue op raw =
        JSValue.list (((splitComma raw).map jsTrim).map coerceItem)) := by
  refine ⟨?_, ?_, ?_, ?_, ?_⟩
  · intro n hn
    rw [coerceFilterValue_eq, hn]
  · intro hn ht
    rw [coerceFilterValue_eq, hn]
    unfold coerceFallback
    simp [ht]
  · intro hn hf
    rw [coerceFilterValue_eq, hn]
    unfold coerceFallback
    have ht : jsToLower raw ≠ "true" := by rw [hf]; decide
    simp [ht, hf]
  · intro hn ht hf hop
    rw [coerceFilterValue_eq, hn]
    unfold coerceFallback
    simp [ht, hf, hop]
  · intro hn ht hf hop
    rw [coerceFilterValue_eq, hn]
    unfold coerceFallback
    simp [ht, hf, hop]

/-- Claim C1, witness: the amended coercion order at concrete inputs — a
boolean literal in mixed case, and a plain string under a scalar operator. -/
theorem c1_coercion_order_witness :
    coerceFilterValue FilterOperator.Equal "TrUe" = JSValue.scalar (Scalar.bool true) ∧
    coerceFilterValue FilterOperator.Equal "abc" = JSValue.scalar (Scalar.str "abc") :=
  ⟨(c1_coercion_order FilterOperator.Equal "TrUe").2.1 (by decide) (by decide),
    (c1_coercion_order FilterOperator.Equal "abc").2.2.2.1 (by decide) (by decide)
      (by decide) (by decide)⟩

/-- Claim C2, counterexample: a filter condition with the `In` operator whose
raw value parses as a number is coerced to a scalar number, not to a list —
the top-level numeric check runs before the `In` branch is reached. -/
theorem c2_counterexample :
    coerceFilterValue FilterOperator.In "5" = JSValue.scalar (Scalar.num (JNum.finite 5)) ∧
    JSValue.isList (coerceFilterValue FilterOperator.In "5") = false := by decide

/-- Claim C2, amended: with the `In` operator, once the raw value fails the
top-level numeric parse and the boolean-literal checks, the coerced value is
the comma-split, trimmed list with every element coerced independently by the
same rule — numeric parse (guarded against the empty string) first, then the
case-insensitive boolean literals, else the string. A raw value that passes
one of the top-level checks yields that scalar instead. -/
theorem c2_in_elementwise (raw : String)
    (hn : numGuard raw = none)
    (ht : jsToLower raw ≠ "true") (hf : jsToLower raw ≠ "false") :
    coerceFilterValue FilterOperator.In raw =
      JSValue.list (((splitComma raw).map jsTrim).map coerceItem) ∧
    (∀ item n, jsNumber item = some n → item ≠ "" →
      coerceItem item = Scalar.num n) ∧
    (∀ item, (jsNumber item = none ∨ item = "") → jsToLower item = "true" →
      coerceItem item = Scalar.bool true) ∧
    (∀ item, (jsNumber item = none ∨ item = "") → jsToLower item = "false" →
      coerceItem item = Scalar.bool false) ∧
    (∀ item, (jsNumber item = none ∨ item = "") → jsToLower item ≠ "true" →
      jsToLower item ≠ "false" → coerceItem item = Scalar.str item) := by
  refine ⟨?_, ?_, ?_, ?_, ?_⟩
  · rw [coerceFilterValue_eq, hn]
    unfold coerceFallback
    simp [ht, hf]
  · intro item n hjs hne
    unfold coerceItem
    rw [hjs]
    simp [hne]
  · intro item hd ht2
    rcases hd with hjs | he
    · unfold coerceItem; rw [hjs]; simp [ht2]
    · subst he; exact absurd ht2 (by decide)
  · intro item hd hf2
    rcases hd with hjs | he
    · unfold coerceItem
      rw [hjs]
      have ht2 : jsToLower item ≠ "true" := by rw [hf2]; decide
      simp [ht2, hf2]
    · subst he; exact absurd hf2 (by decide)
  · intro item hd ht2 hf2
    rcases hd with hjs | he
    · unfold coerceItem; rw [hjs]; simp [ht2, hf2]
    · subst he; decide

/-- Claim C2, witness: an `In` filter value that falls through to the list
branch, with a string, a numeric and a boolean element coerced
independently. -/
theorem c2_in_elementwise_witness :
    coerceFilterValue FilterOperator.In "a, 5, TRUE" =
      JSValue.list [Scalar.str "a", Scalar.num (JNum.finite 5), Scalar.bool true] :=
  ((c2_in_elementwise "a, 5, TRUE" (by decide) (by decide) (by decide)).1).trans (by decide)

/-- Claim C4: whenever `generatePivot` runs on a state with an empty
`valueFields`, no request is sent to the backend, an error message is set
instead, and — whenever a file is selected, so that the earlier guard does
not fire first — that message is the empty-value-fields one. -/
theorem c4_empty_values_no_backend_call
    (backend : PivotRequest → Except String PivotResult) (st : AppState)
    (h : st.valueFields = []) :
    (generatePivot backend st).2 = none ∧
    (∃ msg, (generatePivot backend st).1.error = some msg) ∧
    (st.filePath ≠ none →
      (generatePivot backend st).1.error =
        some "Please select at least one value field with aggregation") := by
  unfold generatePivot
  cases hfp : st.filePath with
  | none => exact ⟨rfl, ⟨_, rfl⟩, fun hc => absurd rfl hc⟩
  | some p => simp [h]

/-- Claim C4, witness: a concrete state with a selected file and no value
fields — the backend is never called and the empty-value-fields message is
set. -/
theorem c4_empty_values_witness :
    (generatePivot stubBackend c4State).2 = none ∧
    (generatePivot stubBackend c4State).1.error =
      some "Please select at least one value field with aggregation" :=
  ⟨(c4_empty_values_no_backend_call stubBackend c4State rfl).1,
    (c4_empty_values_no_backend_call stubBackend c4State rfl).2.2 (by decide)⟩

/-- One configurator interaction preserves dimension exclusivity. -/
theorem dimensionsExclusive_step (st : ConfigState) (e : ConfigEvent)
    (h : dimensionsExclusive st) : dimensionsExclusive (configStep st e) := by
  cases e with
  | dimChange f d =>
      intro g
      obtain ⟨h1, h2, h3⟩ := h g
      by_cases hgf : g = f <;>
        cases d <;>
          simp only [configStep, handleDimensionChange, List.mem_append,
            mem_filter_ne, List.map_append, List.map_cons, List.map_nil,
            mem_fieldNames_filter, List.mem_singleton, List.not_mem_nil] <;>
          tauto
  | aggChange f a =>
      intro g
      obtain ⟨h1, h2, h3⟩ := h g
      simp only [configStep, handleAggregationChange, fieldNames_map_agg]
      exact ⟨h1, h2, h3⟩

/-- Dimension exclusivity holds in every reachable configurator state. -/
theorem dimensionsExclusive_runConfig (evs : List ConfigEvent) :
    dimensionsExclusive (runConfig evs) := by
  have init : dimensionsExclusive ⟨[], [], []⟩ := by
    intro g; refine ⟨?_, ?_, ?_⟩ <;> rintro ⟨h1, h2⟩ <;> cases h1
  have step : ∀ (l : List ConfigEvent) (st : ConfigState),
      dimensionsExclusive st → dimensionsExclusive (l.foldl configStep st) := by
    intro l
    induction l with
    | nil => intro st h; exact h
    | cons e rest ih => intro st h; exact ih _ (dimensionsExclusive_step st e h)
  exact step evs _ init

/-- Claim C6: after any sequence of dimension-assignment (and aggregation)
interactions in the pivot configurator, every field belongs to at most one of
the rows, columns and values lists; in particular the row and column lists it
emits to the `PivotRequest` share no field. -/
theorem c6_dimensions_exclusive (evs : List ConfigEvent) (f : String) :
    ¬(f ∈ (runConfig evs).rowFields ∧ f ∈ (runConfig evs).columnFields) ∧
    ¬(f ∈ (runConfig evs).rowFields ∧
        f ∈ (runConfig evs).valueFields.map (fun v => v.field)) ∧
    ¬(f ∈ (runConfig evs).columnFields ∧
        f ∈ (runConfig evs).valueFields.map (fun v => v.field)) :=
  dimensionsExclusive_runConfig evs f

/-- `setAt` preserves any elementwise property that the update preserves. -/
theorem setAt_forall {α : Type} (Q : α → Prop) (g : α → α)
    (hg : ∀ x, Q x → Q (g x)) :
    ∀ (l : List α) (i : Nat), (∀ x ∈ l, Q x) → ∀ x ∈ setAt l i g, Q x := by
  intro l
  induction l with
  | nil => intro i h x hx; cases hx
  | cons y ys ih =>
      intro i h x hx
      cases i with
      | zero =>
          rcases List.mem_cons.mp hx with rfl | hm
          · exact hg y (h y (List.mem_cons_self y ys))
          · exact h x (List.mem_cons_of_mem y hm)
      | succ n =>
          rcases List.mem_cons.mp hx with rfl | hm
          · exact h x (List.mem_cons_self x ys)
          · exact ih n (fun z hz => h z (List.mem_cons_of_mem y hz)) x hm

/-- Every option of the filter UI's operator select is in `uiOperators`. -/
theorem toOperator_mem_uiOperators (o : OperatorChoice) :
    o.toOperator ∈ uiOperators := by
  cases o <;> decide

/-- One filter-configurator interaction preserves the operator invariant. -/
theorem operatorsFromUI_step (cols : List String) (fs : List FilterCondition)
    (e : FilterEvent) (h : operatorsFromUI fs) :
    operatorsFromUI (filterStep cols fs e) := by
  cases e with
  | add =>
      cases cols with
      | nil => exact h
      | cons c rest =>
          intro f hf
          rcases List.mem_append.mp hf with hm | hm
          · exact h f hm
          · rcases List.mem_singleton.mp hm with rfl
            show FilterOperator.Equal ∈ uiOperators
            decide
  | remove i => exact fun f hf => h f (List.mem_of_mem_eraseIdx hf)
  | setColumn i c =>
      intro f hf
      exact setAt_forall (fun x : FilterCondition => x.operator ∈ uiOperators)
        (fun x => { x with column := c }) (fun x hx => hx) fs i h f hf
  | setOperator i o =>
      intro f hf
      exact setAt_forall (fun x : FilterCondition => x.operator ∈ uiOperators)
        (fun x => { x with operator := o.toOperator })
        (fun x _ => toOperator_mem_uiOperators o) fs i h f hf
  | setValue i raw =>
      intro f hf
      exact setAt_forall (fun x : FilterCondition => x.operator ∈ uiOperators)
        (fun x => { x with value := coerceFilterValue x.operator raw })
        (fun x hx => hx) fs i h f hf

/-- The operator invariant holds in every reachable filter list. -/
theorem operatorsFromUI_runFilters (cols : List String) (evs : List FilterEvent) :
    operatorsFromUI (runFilters cols evs) := by
  have step : ∀ (l : List FilterEvent) (fs : List FilterCondition),
      operatorsFromUI fs → operatorsFromUI (l.foldl (filterStep cols) fs) := by
    intro l
    induction l with
    | nil => intro fs h; exact h
    | cons e rest ih => intro fs h; exact ih _ (operatorsFromUI_step cols fs e h)
  exact step evs [] (fun f hf => absurd hf (List.not_mem_nil f))

/-- Claim C9: every filter condition reachable through the filter UI — as
created by `addFilter` and after any updates — carries one of the seven
operators its select offers, and never `Contains`. -/
theorem c9_operator_set (cols : List String) (evs : List FilterEvent)
    (f : FilterCondition) (h : f ∈ runFilters cols evs) :
    f.operator ∈ uiOperators ∧ f.operator ≠ FilterOperator.Contains := by
  have hall : ∀ o ∈ uiOperators, o ≠ FilterOperator.Contains := by decide
  have hm := operatorsFromUI_runFilters cols evs f h
  exact ⟨hm, hall _ hm⟩

/-- Claim C9, witness: the condition created by a single add click. -/
theorem c9_operator_set_witness :
    (FilterCondition.mk "c" FilterOperator.Equal (JSValue.scalar (Scalar.str ""))).operator
        ∈ uiOperators ∧
    (FilterCondition.mk "c" FilterOperator.Equal (JSValue.scalar (Scalar.str ""))).operator
        ≠ FilterOperator.Contains :=
  c9_operator_set ["c"] [FilterEvent.add]
    (FilterCondition.mk "c" FilterOperator.Equal (JSValue.scalar (Scalar.str "")))
    (by decide)

/-- `find?` commutes with a map that does not change the predicate. -/
theorem find?_map_pres {α : Type} (p : α → Bool) (u : α → α)
    (hp : ∀ x, p (u x) = p x) :
    ∀ l : List α, (l.map u).find? p = (l.find? p).map u := by
  intro l
  induction l with
  | nil => rfl
  | cons x xs ih =>
      by_cases hx : p x
      · rw [List.map_cons, List.find?_cons_of_pos _ (by rw [hp]; exact hx),
          List.find?_cons_of_pos _ hx]
        rfl
      · rw [List.map_cons, List.find?_cons_of_neg _ (by rw [hp]; simpa using hx),
          List.find?_cons_of_neg _ (by simpa using hx), ih]

/-- `find?` ignores a filter that keeps every element the predicate
accepts. -/
theorem find?_filter_pres {α : Type} (p q : α → Bool)
    (hpq : ∀ x, p x = true → q x = true) :
    ∀ l : List α, (l.filter q).find? p = l.find? p := by
  intro l
  induction l with
  | nil => rfl
  | cons x xs ih =>
      by_cases hq : q x
      · rw [List.filter_cons_of_pos hq]
        by_cases hx : p x
        · rw [List.find?_cons_of_pos _ hx, List.find?_cons_of_pos _ hx]
        · rw [List.find?_cons_of_neg _ (by simpa using hx),
            List.find?_cons_of_neg _ (by simpa using hx), ih]
      · have hx : ¬ p x = true := fun hpx => hq (hpq x hpx)
        rw [List.filter_cons_of_neg (by simpa using hq), ih,
          List.find?_cons_of_neg _ (by simpa using hx)]

/-- After removing a field from the value list, looking it up fails. -/
theorem find?_field_filter_none (vs : List ValueWithAggregation) (f : String) :
    (vs.filter (fun v => v.field != f)).find? (fun v => v.field == f) = none := by
  rw [List.find?_eq_none]
  intro x hx
  have := (List.mem_filter.mp hx).2
  simpa using this

/-- A field just assigned to values carries the default `Sum`. -/
theorem lookupAgg_dimChange_self_values (st : ConfigState) (f : String) :
    lookupAgg (handleDimensionChange f Dimension.values st) f =
      some AggregationType.Sum := by
  unfold lookupAgg handleDimensionChange
  rw [List.find?_append, find?_field_filter_none]
  simp

/-- A dimension change of a different field does not affect a field's
displayed aggregation. -/
theorem lookupAgg_dimChange_other (st : ConfigState) (f g : String)
    (hfg : f ≠ g) (d : Dimension) :
    lookupAgg (handleDimensionChange g d st) f = lookupAgg st f := by
  have hfilter : ((st.valueFields.filter (fun v => v.field != g)).find?
      (fun v => v.field == f)) = st.valueFields.find? (fun v => v.field == f) := by
    apply find?_filter_pres
    intro x hx
    have : x.field = f := by simpa using hx
    simp [this, hfg]
  unfold lookupAgg handleDimensionChange
  cases d
  · rw [hfilter]
  · rw [hfilter]
  · rw [List.find?_append, hfilter]
    have hgf : (g == f) = false := by
      rw [beq_eq_false_iff_ne]
      exact fun he => hfg he.symm
    have hsing : (([⟨g, AggregationType.Sum⟩] : List ValueWithAggregation).find?
        (fun v => v.field == f)) = none := by
      simp [List.find?, hgf]
    rw [hsing]
    cases st.valueFields.find? (fun v => v.field == f) <;> rfl
  · rw [hfilter]

/-- An aggregation change of a different field does not affect a field's
displayed aggregation. -/
theorem lookupAgg_aggChange_other (st : ConfigState) (f g : String)
    (hfg : f ≠ g) (a : AggregationType) :
    lookupAgg (handleAggregationChange g a st) f = lookupAgg st f := by
  unfold lookupAgg handleAggregationChange
  dsimp only
  rw [find?_map_pres (fun v : ValueWithAggregation => v.field == f)
    (fun v : ValueWithAggregation => if v.field = g then { v with aggregation := a } else v)
    (fun x => by by_cases hx : x.field = g <;> simp [hx])]
  cases hfind : st.valueFields.find? (fun v => v.field == f) with
  | none => rfl
  | some x =>
      have hx : x.field = f := by simpa using List.find?_some hfind
      have hxg : ¬ x.field = g := by rw [hx]; exact hfg
      simp [hxg]

/-- Removing a field from values (assigning it to rows, columns or nothing)
clears its displayed aggregation. -/
theorem lookupAgg_dimChange_self_nonvalues (st : ConfigState) (f : String)
    (d : Dimension) (hd : d ≠ Dimension.values) :
    lookupAgg (handleDimensionChange f d st) f = none := by
  unfold lookupAgg handleDimensionChange
  cases d
  · rw [find?_field_filter_none]; rfl
  · rw [find?_field_filter_none]; rfl
  · exact absurd rfl hd
  · rw [find?_field_filter_none]; rfl

/-- Once a field's aggregation is `Sum` (or the field is not a value field),
any sequence of interactions free of aggregation changes for that field
keeps it that way. -/
theorem c10_inv_aux (f : String) :
    ∀ (evs : List ConfigEvent), (∀ a : AggregationType, ConfigEvent.aggChange f a ∉ evs) →
      ∀ st : ConfigState,
        (lookupAgg st f = some AggregationType.Sum ∨ lookupAgg st f = none) →
        (lookupAgg (evs.foldl configStep st) f = some AggregationType.Sum ∨
          lookupAgg (evs.foldl configStep st) f = none) := by
  intro evs
  induction evs with
  | nil => intro _ st h; exact h
  | cons e rest ih =>
      intro hni st h
      have hni2 : ∀ a : AggregationType, ConfigEvent.aggChange f a ∉ rest :=
        fun a ha => hni a (List.mem_cons_of_mem e ha)
      rw [List.foldl_cons]
      apply ih hni2
      cases e with
      | dimChange g d =>
          by_cases hg : g = f
          · subst hg
            cases hd : d with
            | values => left; exact lookupAgg_dimChange_self_values st g
            | rows => right; exact lookupAgg_dimChange_self_nonvalues st g _ (by decide)
            | columns => right; exact lookupAgg_dimChange_self_nonvalues st g _ (by decide)
            | unused => right; exact lookupAgg_dimChange_self_nonvalues st g _ (by decide)
          · show lookupAgg (handleDimensionChange g d st) f = some AggregationType.Sum ∨
                lookupAgg (handleDimensionChange g d st) f = none
            rw [lookupAgg_dimChange_other st f g (fun he => hg he.symm) d]
            exact h
      | aggChange g a =>
          have hgf : ¬ g = f := by
            intro he
            subst he
            exact hni a (List.mem_cons_self _ rest)
          show lookupAgg (handleAggregationChange g a st) f = some AggregationType.Sum ∨
              lookupAgg (handleAggregationChange g a st) f = none
          rw [lookupAgg_aggChange_other st f g (fun he => hgf he.symm) a]
          exact h

/-- Claim C10: a field newly assigned to the values dimension gets the
default aggregation `Sum`, and as long as no explicit aggregation change for
that field follows, its aggregation stays `Sum` (or the field has left the
values dimension again — no interaction other than `handleAggregationChange`
can give it any other aggregation). -/
theorem c10_values_default_sum (st : ConfigState) (f : String)
    (evs : List ConfigEvent)
    (h : ∀ a : AggregationType, ConfigEvent.aggChange f a ∉ evs) :
    lookupAgg (configStep st (ConfigEvent.dimChange f Dimension.values)) f =
      some AggregationType.Sum ∧
    (lookupAgg (evs.foldl configStep
        (configStep st (ConfigEvent.dimChange f Dimension.values))) f =
          some AggregationType.Sum ∨
      lookupAgg (evs.foldl configStep
        (configStep st (ConfigEvent.dimChange f Dimension.values))) f = none) := by
  have h1 : lookupAgg (configStep st (ConfigEvent.dimChange f Dimension.values)) f =
      some AggregationType.Sum := lookupAgg_dimChange_self_values st f
  exact ⟨h1, c10_inv_aux f evs h _ (Or.inl h1)⟩

/-- Claim C10, witness: assign `"amount"` to values, then assign `"region"`
to rows — the aggregation of `"amount"` is and stays the default `Sum`. -/
theorem c10_values_default_sum_witness :
    lookupAgg (configStep ⟨[], [], []⟩ (ConfigEvent.dimChange "amount" Dimension.values))
        "amount" = some AggregationType.Sum ∧
    (lookupAgg ([ConfigEvent.dimChange "region" Dimension.rows].foldl configStep
        (configStep ⟨[], [], []⟩ (ConfigEvent.dimChange "amount" Dimension.values)))
          "amount" = some AggregationType.Sum ∨
      lookupAgg ([ConfigEvent.dimChange "region" Dimension.rows].foldl configStep
        (configStep ⟨[], [], []⟩ (ConfigEvent.dimChange "amount" Dimension.values)))
          "amount" = none) :=
  c10_values_default_sum ⟨[], [], []⟩ "amount"
    [ConfigEvent.dimChange "region" Dimension.rows]
    (by intro a ha; simp at ha)

/-- On a state with value fields and a result only if a file is selected,
`generatePivot` completes with either a result and no error, or an error and
no result. -/
theorem generatePivot_exclusive (backend : PivotRequest → Except String PivotResult)
    (st : AppState) (hv : st.valueFields ≠ [])
    (hinv : st.pivotResult = none ∨ st.filePath ≠ none) :
    (∃ r, (generatePivot backend st).1.pivotResult = some r ∧
      (generatePivot backend st).1.error = none) ∨
    (∃ e, (generatePivot backend st).1.error = some e ∧
      (generatePivot backend st).1.pivotResult = none) := by
  unfold generatePivot
  cases hfp : st.filePath with
  | none =>
      right
      refine ⟨"Please select a file first", rfl, ?_⟩
      rcases hinv with h1 | h1
      · exact h1
      · exact absurd hfp h1
  | some p =>
      dsimp only
      rw [if_neg hv]
      split
      · exact Or.inl ⟨_, rfl, rfl⟩
      · exact Or.inr ⟨_, rfl, rfl⟩

/-- Every `App` event preserves the result-only-with-file invariant. -/
theorem resultFileInv_step (backend : PivotRequest → Except String PivotResult)
    (st : AppState) (e : AppEvent) (h : resultFileInv st) :
    resultFileInv (appStep backend st e) := by
  cases e with
  | fileSelected p cs => exact Or.inl rfl
  | configChange r c v => exact h
  | filtersChange fs => exact h
  | generate =>
      unfold appStep
      dsimp only
      by_cases hc : canGenerate st
      · rw [if_pos hc]
        unfold generatePivot
        cases hfp : st.filePath with
        | none =>
            rcases h with h1 | h1
            · exact Or.inl h1
            · exact absurd hfp h1
        | some p =>
            dsimp only
            by_cases hv : st.valueFields = []
            · rw [if_pos hv]
              exact Or.inr (Option.some_ne_none p)
            · rw [if_neg hv]
              split
              · exact Or.inr (Option.some_ne_none p)
              · exact Or.inl rfl
      · rw [if_neg hc]
        exact h

/-- The result-only-with-file invariant holds in every reachable `App`
state. -/
theorem resultFileInv_runApp (backend : PivotRequest → Except String PivotResult)
    (evs : List AppEvent) : resultFileInv (runApp backend evs) := by
  have step : ∀ (l : List AppEvent) (st : AppState),
      resultFileInv st → resultFileInv (l.foldl (appStep backend) st) := by
    intro l
    induction l with
    | nil => intro st h; exact h
    | cons e rest ih => intro st h; exact ih _ (resultFileInv_step backend st e h)
  exact step evs initialAppState (Or.inl rfl)

/-- Claim C5: from any reachable `App` state in which the generate button is
clickable, a completed `generatePivot` leaves either a pivot result with a
null error, or an error with a null pivot result — never a mixed state. -/
theorem c5_success_or_rejection (backend : PivotRequest → Except String PivotResult)
    (evs : List AppEvent) (h : canGenerate (runApp backend evs)) :
    (∃ r, (appStep backend (runApp backend evs) AppEvent.generate).pivotResult = some r ∧
      (appStep backend (runApp backend evs) AppEvent.generate).error = none) ∨
    (∃ e, (appStep backend (runApp backend evs) AppEvent.generate).error = some e ∧
      (appStep backend (runApp backend evs) AppEvent.generate).pivotResult = none) := by
  have hinv := resultFileInv_runApp backend evs
  unfold appStep
  rw [if_pos h]
  exact generatePivot_exclusive backend (runApp backend evs) h.2.2 hinv

/-- Claim C5, witness: select a file, configure a value field, generate with
an always-succeeding backend. -/
theorem c5_success_or_rejection_witness :
    (∃ r, (appStep okBackend (runApp okBackend c5Events) AppEvent.generate).pivotResult = some r ∧
      (appStep okBackend (runApp okBackend c5Events) AppEvent.generate).error = none) ∨
    (∃ e, (appStep okBackend (runApp okBackend c5Events) AppEvent.generate).error = some e ∧
      (appStep okBackend (runApp okBackend c5Events) AppEvent.generate).pivotResult = none) :=
  c5_success_or_rejection okBackend c5Events (by decide)
